import Mathlib

/-!
Shallow embedding of the dataset engine of the repository
(file_manager/dataset/tiled_dataset.py), together with theorems settling
the specification claims about it.

Python strings are modelled as lists of characters, numpy arrays as a
nested inductive type of integer leaves, and fallible operations
(indexing errors, parse errors) as Option-valued functions.  The remote
tiled client is modelled as a record of total functions describing the
store that the code queries; the nondeterministic completion order of
the discovery thread pool is an explicit permutation parameter.
-/

/-- The characters of the literal slice key used in URI derivation and
extraction (the Python substring between the question mark and the
index). -/
def sliceKey : List Char := ['s', 'l', 'i', 'c', 'e', '=']

/-- Decimal representation of a natural number as Python str produces it
(no sign, no leading zeros, and the single digit 0 for zero). -/
def natChars (n : Nat) : List Char :=
  if n = 0 then ['0'] else ((Nat.digits 10 n).reverse).map Nat.digitChar

/-- Embeds TiledDataset._get_tiled_uris (tiled_dataset.py lines 165-180):
if the node has more than 2 dimensions and its leading dimension exceeds
1, one URI per requested index is derived by appending the slice
discriminator to the base URI; otherwise the single base URI is
returned.  The source line base_tiled_uri.replace(...) discards its
result (Python strings are immutable), so the base URI is unchanged. -/
def get_tiled_uris (shape : List Nat) (base : List Char) (indexes : List Nat) :
    List (List Char) :=
  if 2 < shape.length ∧ 1 < shape.headD 0 then
    indexes.map (fun index => base ++ ('?' :: sliceKey) ++ natChars index)
  else [base]

/-- Python substring containment test: the slice key occurs somewhere in
the string (uri contains the key). -/
def containsSlice (s : List Char) : Bool :=
  match s with
  | [] => false
  | c :: rest => sliceKey.isPrefixOf (c :: rest) || containsSlice rest

/-- Python str.split with the slice key as separator, accumulator style:
scan left to right, emitting a segment at each non-overlapping leftmost
occurrence of the key. -/
def splitOnSlice (s : List Char) (acc : List Char) : List (List Char) :=
  match s with
  | [] => [acc.reverse]
  | c :: rest =>
    if sliceKey.isPrefixOf (c :: rest) then
      acc.reverse :: splitOnSlice (rest.drop 5) []
    else
      splitOnSlice rest (c :: acc)
termination_by s.length
decreasing_by
  all_goals simp [List.length_drop]
  omega

/-- Python int() on a plain digit string: succeeds on a nonempty
all-digit sequence (an optional leading sign is also accepted), fails
otherwise (ValueError). -/
def parseDigits (cs : List Char) : Option Nat :=
  if cs ≠ [] ∧ cs.all (fun c => c.isDigit) then
    some (cs.foldl (fun a c => 10 * a + (c.toNat - 48)) 0)
  else none

/-- Python int() applied to a string: optional sign then digits. -/
def pyInt (cs : List Char) : Option Int :=
  if cs.headD ' ' = '-' then (parseDigits (cs.drop 1)).map (fun n => -(n : Int))
  else if cs.headD ' ' = '+' then (parseDigits (cs.drop 1)).map (fun n => (n : Int))
  else (parseDigits cs).map (fun n => (n : Int))

/-- Embeds TiledDataset.get_uri_index (tiled_dataset.py lines 182-192):
a URI without the slice key has index 0; otherwise the text after the
last occurrence of the key is parsed as an integer (the last element of
the Python split). -/
def get_uri_index (uri : List Char) : Option Int :=
  if containsSlice uri = false then some 0
  else pyInt ((splitOnSlice uri []).getLastD [])

/-- Embeds the Dataset entity (uri plus cumulative data count) as
constructed by TiledDataset.__init__. -/
structure Dataset where
  uri : List Char
  cumulative_data_count : Int

/-- The flat key-value record produced by TiledDataset.to_dict. -/
structure DatasetRecord where
  uri : List Char
  cumulative_data_count : Int

/-- Embeds TiledDataset.to_dict (tiled_dataset.py lines 32-41). -/
def to_dict (d : Dataset) : DatasetRecord :=
  { uri := d.uri, cumulative_data_count := d.cumulative_data_count }

/-- Embeds TiledDataset.from_dict (tiled_dataset.py lines 43-52). -/
def from_dict (r : DatasetRecord) : Dataset :=
  { uri := r.uri, cumulative_data_count := r.cumulative_data_count }

/-- Embeds TiledDataset._get_node_size (tiled_dataset.py lines 210-217):
1 for a two-dimensional shape, otherwise the leading entry of the shape
tuple (none models the IndexError raised on an empty shape). -/
def get_node_size (shape : List Nat) : Option Nat :=
  if shape.length = 2 then some 1 else shape.head?

/-- Embeds the cumulative sum comprehension of
TiledDataset._get_cumulative_data_count (tiled_dataset.py line 234):
entry i is the sum of the first i+1 local sizes. -/
def cumulative_counts (sizes : List Nat) : List Nat :=
  (List.range sizes.length).map (fun i => (sizes.take (i + 1)).sum)

/-- Model of the remote tiled client as seen by browse_data: the child
names of the root, whether a path lookup succeeds, whether a path is a
leaf array node (ArrayClient), the child names of a branch path, and
the shape of an array path. -/
structure TiledClientModel where
  children : List (List Char)
  lookupOk : List Char → Bool
  isArray : List Char → Bool
  childrenOf : List Char → List (List Char)
  shapeOf : List Char → List Nat

/-- The probe path built by TiledDataset._check_node, a slash, the node
name, a slash and the sub URI template. -/
def probe_path (node sub_uri : List Char) : List Char :=
  '/' :: (node ++ ('/' :: sub_uri))

/-- Embeds TiledDataset._check_node (tiled_dataset.py lines 194-208):
returns the probe path when the lookup succeeds and none when the lookup
raises (the except branch). -/
def check_node (client : TiledClientModel) (sub_uri node : List Char) :
    Option (List Char) :=
  if client.lookupOk (probe_path node sub_uri) then some (probe_path node sub_uri)
  else none

/-- Embeds TiledDataset._get_cumulative_data_count (tiled_dataset.py
lines 219-235): the local size of each node in order (executor.map
preserves input order) and then the cumulative sums; none models a
propagated sizing error. -/
def get_cumulative_data_count (client : TiledClientModel)
    (nodes : List (List Char)) : Option (List Nat) :=
  (nodes.mapM (fun node => get_node_size (client.shapeOf node))).map cumulative_counts

/-- The expanded sub URI of a branch child built in browse_data, the
selected sub URI, a slash and the child name. -/
def joinSlash (a b : List Char) : List Char := a ++ ('/' :: b)

/-- Embeds TiledDataset.browse_data (tiled_dataset.py lines 237-290).
The first branch (explicit selection, taken whenever the selected list
differs from the default single empty string) expands branch nodes into
their children and computes cumulative counts; the second branch
(discovery) probes every root child concurrently and appends surviving
URIs in thread completion order, given here as the explicit
completion_order list, with zero placeholder counts. -/
def browse_data (client : TiledClientModel) (sub_uri_template : List Char)
    (selected_sub_uris : List (List Char)) (completion_order : List (List Char)) :
    Option (List (List Char) × List Nat) :=
  if selected_sub_uris ≠ [[]] then
    let tmp := selected_sub_uris.flatMap (fun s =>
      if client.isArray s then [s]
      else (client.childrenOf s).map (fun node => joinSlash s node))
    (get_cumulative_data_count client tmp).map (fun counts => (tmp, counts))
  else
    let uris := completion_order.filterMap (fun node =>
      check_node client sub_uri_template node)
    some (uris, List.replicate uris.length 0)

/-- Nested model of a numpy array: integer leaves and nodes holding the
subarrays along the leading axis. -/
inductive NDArr where
  | leaf (x : Int)
  | node (xs : List NDArr)

/-- Shape of a (regular) nested array, read along the leading spine as
numpy and tiled report it. -/
def ndshape : NDArr → List Nat
  | .leaf _ => []
  | .node [] => [0]
  | .node (x :: xs) => (xs.length + 1) :: ndshape x

/-- Fancy indexing tiled_data[indexes] along the leading axis; none
models the IndexError raised on an out-of-range index or on a scalar. -/
def fancyIndex (data : NDArr) (indexes : List Nat) : Option NDArr :=
  match data with
  | .leaf _ => none
  | .node xs => (indexes.mapM (fun i => xs[i]?)).map NDArr.node

/-- Every tenth element of a list, the stride ten slice. -/
def stride10 : List NDArr → List NDArr
  | [] => []
  | x :: rest => x :: stride10 (rest.drop 9)
termination_by xs => xs.length
decreasing_by
  simp [List.length_drop]
  omega

/-- Stride ten applied to the leading axis of an array. -/
def strideTop : NDArr → NDArr
  | .node cells => .node (stride10 cells)
  | .leaf x => .leaf x

/-- The slice [::10, ::10] on the first two axes of an array. -/
def strideFirst2 : NDArr → NDArr
  | .node xs => .node ((stride10 xs).map strideTop)
  | .leaf x => .leaf x

/-- Applies a function to each subarray along the leading axis. -/
def mapChildren (f : NDArr → NDArr) : NDArr → NDArr
  | .node xs => .node (xs.map f)
  | .leaf x => .leaf x

/-- np.expand_dims(a, axis=0). -/
def expandDims (a : NDArr) : NDArr := .node [a]

/-- np.squeeze(a, axis=1): drops the singleton second axis. -/
def squeezeAxis1 : NDArr → NDArr
  | .node xs => .node (xs.map (fun img =>
      match img with
      | .node [y] => y
      | other => other))
  | .leaf x => .leaf x

/-- Embeds the block slicing of TiledDataset.read_data (tiled_dataset.py
lines 115-130): dispatch on the length of the shape; four and three
dimensional arrays are fancy-indexed along the leading axis (with the
stride ten slice on the trailing two axes when downsampling); every
other rank takes the else branch, the whole array (strided on its first
two axes when downsampling, which raises below rank 2) wrapped by
expand_dims into a single-element batch. -/
def slice_block (downsample : Bool) (data : NDArr) (indexes : List Nat) :
    Option NDArr :=
  if downsample then
    if (ndshape data).length = 4 then
      (fancyIndex data indexes).map (mapChildren (mapChildren strideFirst2))
    else if (ndshape data).length = 3 then
      (fancyIndex data indexes).map (mapChildren strideFirst2)
    else
      if 2 ≤ (ndshape data).length then some (expandDims (strideFirst2 data))
      else none
  else
    if (ndshape data).length = 4 then fancyIndex data indexes
    else if (ndshape data).length = 3 then fancyIndex data indexes
    else some (expandDims data)

/-- Embeds TiledDataset.read_data (tiled_dataset.py lines 104-150) at
the level of the returned block and URIs: URIs are derived, the block is
sliced, a raw export returns the block unchanged, and otherwise the
block is squeezed along axis 1 exactly when block_data.shape[1] equals 1
(none models the IndexError of shape[1] on a rank-1 block) and handed to
the per-image pipeline.  The per-image transform _process_image lives in
the Dataset base class outside this repository slice, so the non-raw
result here is the block submitted to the thread pool. -/
def read_data (downsample : Bool) (export_raw : Bool) (data : NDArr)
    (base : List Char) (indexes : List Nat) :
    Option (NDArr × List (List Char)) :=
  let uris := get_tiled_uris (ndshape data) base indexes
  (slice_block downsample data indexes).bind (fun block =>
    if export_raw then some (block, uris)
    else
      ((ndshape block)[1]?).bind (fun d =>
        some ((if d = 1 then squeezeAxis1 block else block), uris)))

/-- Concrete five dimensional array used to exercise the rank dispatch. -/
def data5 : NDArr := .node [.node [.node [.node [.node [.leaf 7]]]]]

/-- Concrete three dimensional array of shape (2, 1, 3), a stack of two
height-one images. -/
def src213 : NDArr :=
  .node [.node [.node [.leaf 1, .leaf 2, .leaf 3]],
         .node [.node [.leaf 4, .leaf 5, .leaf 6]]]

/-- Concrete base URI used in closed evaluations. -/
def uriBase : List Char := ['h', 't', 't', 'p', ':', '/', '/', 'x']

/-- Concrete client with root children A, B, C where only the probes of
A and C resolve, used to exercise discovery browsing. -/
def clientABC : TiledClientModel :=
  { children := [['A'], ['B'], ['C']]
    lookupOk := fun s =>
      (s == probe_path ['A'] ['t']) || (s == probe_path ['C'] ['t'])
    isArray := fun _ => false
    childrenOf := fun _ => []
    shapeOf := fun _ => [] }

/-- Claim C8: deserializing the serialized record of any Dataset yields
an equal Dataset, reproducing both the uri and the cumulative count. -/
theorem dataset_roundtrip (d : Dataset) : from_dict (to_dict d) = d := by
  cases d
  rfl

theorem sum_take_succ_eq (l : List Nat) (n : Nat) (h : n < l.length) :
    (l.take (n + 1)).sum = (l.take n).sum + l.getD n 0 := by
  induction l generalizing n with
  | nil => simp at h
  | cons x xs ih =>
    cases n with
    | zero => simp
    | succ m =>
      simp only [List.take_succ_cons, List.sum_cons, List.getD_cons_succ]
      rw [ih m (by simpa using h)]
      omega

theorem sum_take_mono (l : List Nat) (i j : Nat) (hij : i ≤ j) :
    (l.take i).sum ≤ (l.take j).sum := by
  induction l generalizing i j with
  | nil => simp
  | cons x xs ih =>
    cases i with
    | zero => simp
    | succ m =>
      cases j with
      | zero => omega
      | succ k =>
        simp only [List.take_succ_cons, List.sum_cons]
        have := ih m k (by omega)
        omega

theorem cumulative_counts_getD (c : List Nat) (i : Nat) (h : i < c.length) :
    (cumulative_counts c).getD i 0 = (c.take (i + 1)).sum := by
  have hlen : i < (cumulative_counts c).length := by
    simpa [cumulative_counts] using h
  rw [List.getD_eq_getElem _ _ hlen]
  simp [cumulative_counts]

/-- Claim C5: the cumulative-count sequence of explicit-selection
browsing has one entry per local count, entry i is the prefix sum of the
first i+1 counts, consecutive differences recover the local counts with
entry -1 taken as 0, and the sequence is monotone non-decreasing. -/
theorem cumulative_counts_spec (c : List Nat) :
    (cumulative_counts c).length = c.length ∧
    (∀ i, i < c.length → (cumulative_counts c).getD i 0 = (c.take (i + 1)).sum) ∧
    (cumulative_counts c).getD 0 0 = c.getD 0 0 ∧
    (∀ i, i + 1 < c.length →
      (cumulative_counts c).getD (i + 1) 0
        = (cumulative_counts c).getD i 0 + c.getD (i + 1) 0) ∧
    (∀ i j, i ≤ j → j < c.length →
      (cumulative_counts c).getD i 0 ≤ (cumulative_counts c).getD j 0) := by
  refine ⟨by simp [cumulative_counts], cumulative_counts_getD c, ?_, ?_, ?_⟩
  · cases c with
    | nil => simp [cumulative_counts]
    | cons x xs =>
      rw [cumulative_counts_getD _ 0 (by simp)]
      simp
  · intro i hi
    rw [cumulative_counts_getD c (i + 1) hi,
      cumulative_counts_getD c i (by omega),
      sum_take_succ_eq c (i + 1) hi]
  · intro i j hij hj
    rw [cumulative_counts_getD c i (by omega), cumulative_counts_getD c j hj]
    exact sum_take_mono c (i + 1) (j + 1) (by omega)

/-- Closed instance of cumulative_counts_spec at the concrete count list
[2, 3, 0, 4]. -/
theorem cumulative_counts_spec_witness :
    (cumulative_counts [2, 3, 0, 4]).getD 1 0 = ([2, 3, 0, 4].take 2).sum ∧
    (cumulative_counts [2, 3, 0, 4]).getD 2 0
      = (cumulative_counts [2, 3, 0, 4]).getD 1 0 + [2, 3, 0, 4].getD 2 0 ∧
    (cumulative_counts [2, 3, 0, 4]).getD 1 0
      ≤ (cumulative_counts [2, 3, 0, 4]).getD 3 0 :=
  ⟨(cumulative_counts_spec [2, 3, 0, 4]).2.1 1 (by decide),
   (cumulative_counts_spec [2, 3, 0, 4]).2.2.2.1 1 (by decide),
   (cumulative_counts_spec [2, 3, 0, 4]).2.2.2.2 1 3 (by decide) (by decide)⟩

/-- Claim C6: the local image count of a node is 1 when its shape has
exactly 2 dimensions, and the size of the leading dimension otherwise;
shape (5, 64, 64) gives 5 and shape (64, 64) gives 1. -/
theorem get_node_size_spec (shape : List Nat) :
    (shape.length = 2 → get_node_size shape = some 1) ∧
    (∀ d ds, shape = d :: ds → shape.length ≠ 2 → get_node_size shape = some d) ∧
    get_node_size [5, 64, 64] = some 5 ∧
    get_node_size [64, 64] = some 1 := by
  refine ⟨fun h => by simp [get_node_size, h], ?_, by decide, by decide⟩
  intro d ds hs hne
  subst hs
  simp only [get_node_size]
  rw [if_neg hne]
  rfl

/-- Closed instance of get_node_size_spec at the shapes of the spec's
examples. -/
theorem get_node_size_spec_witness :
    get_node_size [5, 64, 64] = some 5 ∧ get_node_size [64, 64] = some 1 :=
  ⟨(get_node_size_spec [5, 64, 64]).2.1 5 [64, 64] rfl (by decide),
   (get_node_size_spec [64, 64]).1 rfl⟩

/-- Claim C1: when the node's array has more than 2 dimensions and its
leading dimension exceeds 1, one URI per requested index is returned in
exactly the request order, each the base URI with the slice
discriminator for that index appended; otherwise exactly one flat URI
(the base URI) is returned for all requested indexes. -/
theorem get_tiled_uris_spec (shape : List Nat) (base : List Char) (idxs : List Nat) :
    (2 < shape.length → 1 < shape.headD 0 →
      (get_tiled_uris shape base idxs).length = idxs.length ∧
      ∀ j, j < idxs.length →
        (get_tiled_uris shape base idxs).getD j []
          = base ++ ('?' :: sliceKey) ++ natChars (idxs.getD j 0)) ∧
    (¬ (2 < shape.length ∧ 1 < shape.headD 0) →
      get_tiled_uris shape base idxs = [base]) := by
  constructor
  · intro h1 h2
    rw [get_tiled_uris, if_pos ⟨h1, h2⟩]
    refine ⟨by simp, ?_⟩
    intro j hj
    rw [List.getD_eq_getElem _ _ (by simpa using hj),
      List.getD_eq_getElem _ _ hj]
    simp
  · intro h
    rw [get_tiled_uris, if_neg h]

/-- Closed instance of get_tiled_uris_spec: a 3-dimensional 5-slice node
with requested indexes [2, 0, 4]. -/
theorem get_tiled_uris_spec_witness :
    (get_tiled_uris [5, 64, 64] uriBase [2, 0, 4]).length = [2, 0, 4].length ∧
    (get_tiled_uris [5, 64, 64] uriBase [2, 0, 4]).getD 1 []
      = uriBase ++ ('?' :: sliceKey) ++ natChars ([2, 0, 4].getD 1 0) :=
  ⟨((get_tiled_uris_spec [5, 64, 64] uriBase [2, 0, 4]).1 (by decide) (by decide)).1,
   ((get_tiled_uris_spec [5, 64, 64] uriBase [2, 0, 4]).1 (by decide) (by decide)).2
     1 (by decide)⟩

/-- Claim C10: browsing with an empty explicit selection takes the
explicit-selection branch for any client and any discovery completion
order (the result does not depend on the root's children), expands
nothing, and returns two empty sequences. -/
theorem browse_data_empty_selection (client : TiledClientModel)
    (tmpl : List Char) (order : List (List Char)) :
    browse_data client tmpl [] order = some ([], []) := by
  rw [browse_data, if_pos (by simp)]
  simp [get_cumulative_data_count, cumulative_counts, List.mapM, List.mapM.loop]

theorem filterMap_check_node (client : TiledClientModel) (tmpl : List Char)
    (l : List (List Char)) :
    l.filterMap (fun node => check_node client tmpl node)
      = (l.filter (fun n => client.lookupOk (probe_path n tmpl))).map
          (fun n => probe_path n tmpl) := by
  induction l with
  | nil => rfl
  | cons a t ih =>
    simp only [check_node] at ih ⊢
    cases h : client.lookupOk (probe_path a tmpl) with
    | true => simp [List.filterMap_cons, List.filter_cons, h, ih]
    | false => simp [List.filterMap_cons, List.filter_cons, h, ih]

/-- Claim C4: in discovery mode, for any thread completion order (any
permutation of the root's children), browsing never fails, each
surviving child contributes exactly its probe URI (the result is a
permutation of the probe URIs of the children whose lookup succeeds,
failing children being dropped), and the cumulative counts are all
zeros, one per returned URI. -/
theorem browse_data_discovery_spec (client : TiledClientModel) (tmpl : List Char)
    (order : List (List Char)) (h : order.Perm client.children) :
    ∃ uris : List (List Char),
      browse_data client tmpl [[]] order
        = some (uris, List.replicate uris.length 0) ∧
      uris.Perm ((client.children.filter
          (fun n => client.lookupOk (probe_path n tmpl))).map
          (fun n => probe_path n tmpl)) := by
  refine ⟨order.filterMap (fun node => check_node client tmpl node), ?_, ?_⟩
  · rw [browse_data, if_neg (by simp)]
  · rw [filterMap_check_node]
    exact (h.filter _).map _

/-- Closed instance of browse_data_discovery_spec on the concrete client
with children A, B, C of which only A and C survive the probe. -/
theorem browse_data_discovery_spec_witness :
    ∃ uris : List (List Char),
      browse_data clientABC ['t'] [[]] clientABC.children
        = some (uris, List.replicate uris.length 0) ∧
      uris.Perm ((clientABC.children.filter
          (fun n => clientABC.lookupOk (probe_path n ['t']))).map
          (fun n => probe_path n ['t'])) :=
  browse_data_discovery_spec clientABC ['t'] clientABC.children (List.Perm.refl _)

theorem mapM_getElem_eq (xs : List NDArr) (idxs : List Nat)
    (h : ∀ i ∈ idxs, i < xs.length) :
    idxs.mapM (fun i => xs[i]?)
      = some (idxs.map (fun i => xs.getD i (NDArr.leaf 0))) := by
  induction idxs with
  | nil => rfl
  | cons a t ih =>
    have ha : a < xs.length := h a (by simp)
    have ht : ∀ i ∈ t, i < xs.length := fun i hi => h i (by simp [hi])
    rw [List.mapM_cons, ih ht]
    simp [List.getElem?_eq_getElem ha, List.getD_eq_getElem _ _ ha]

/-- Claim C7: a raw export returns the sliced block unchanged together
with the derived URIs (no squeeze and no per-image transform is applied
to it, for any downsampling choice and any array), and on a
3-dimensional source without downsampling the returned block consists
of exactly the source subarrays at the requested indexes, in request
order, with values untouched. -/
theorem read_data_raw_spec (ds : Bool) (data : NDArr) (xs : List NDArr)
    (base : List Char) (idxs : List Nat)
    (h3 : (ndshape (NDArr.node xs)).length = 3)
    (hb : ∀ i ∈ idxs, i < xs.length) :
    read_data ds true data base idxs
      = (slice_block ds data idxs).map
          (fun b => (b, get_tiled_uris (ndshape data) base idxs)) ∧
    read_data false true (NDArr.node xs) base idxs
      = some (NDArr.node (idxs.map (fun i => xs.getD i (NDArr.leaf 0))),
          get_tiled_uris (ndshape (NDArr.node xs)) base idxs) := by
  constructor
  · unfold read_data
    cases slice_block ds data idxs with
    | none => rfl
    | some b => rfl
  · have hs : slice_block false (NDArr.node xs) idxs
        = some (NDArr.node (idxs.map (fun i => xs.getD i (NDArr.leaf 0)))) := by
      unfold slice_block
      rw [if_neg (by simp), if_neg (by omega), if_pos h3]
      have hf : fancyIndex (NDArr.node xs) idxs
          = (idxs.mapM (fun i => xs[i]?)).map NDArr.node := rfl
      rw [hf, mapM_getElem_eq xs idxs hb]
      rfl
    unfold read_data
    rw [hs]
    rfl

/-- Closed instance of read_data_raw_spec on a concrete 3-dimensional
stack of two 1x2 images read raw at indexes [1, 0]. -/
theorem read_data_raw_spec_witness :
    read_data false true
        (NDArr.node [NDArr.node [NDArr.node [NDArr.leaf 1, NDArr.leaf 2]],
          NDArr.node [NDArr.node [NDArr.leaf 3, NDArr.leaf 4]]]) uriBase [1, 0]
      = (slice_block false
          (NDArr.node [NDArr.node [NDArr.node [NDArr.leaf 1, NDArr.leaf 2]],
            NDArr.node [NDArr.node [NDArr.leaf 3, NDArr.leaf 4]]]) [1, 0]).map
          (fun b => (b, get_tiled_uris
            (ndshape (NDArr.node [NDArr.node [NDArr.node [NDArr.leaf 1, NDArr.leaf 2]],
              NDArr.node [NDArr.node [NDArr.leaf 3, NDArr.leaf 4]]])) uriBase [1, 0])) ∧
    read_data false true
        (NDArr.node [NDArr.node [NDArr.node [NDArr.leaf 1, NDArr.leaf 2]],
          NDArr.node [NDArr.node [NDArr.leaf 3, NDArr.leaf 4]]]) uriBase [1, 0]
      = some (NDArr.node ([1, 0].map (fun i =>
            [NDArr.node [NDArr.node [NDArr.leaf 1, NDArr.leaf 2]],
              NDArr.node [NDArr.node [NDArr.leaf 3, NDArr.leaf 4]]].getD i (NDArr.leaf 0))),
          get_tiled_uris
            (ndshape (NDArr.node [NDArr.node [NDArr.node [NDArr.leaf 1, NDArr.leaf 2]],
              NDArr.node [NDArr.node [NDArr.leaf 3, NDArr.leaf 4]]])) uriBase [1, 0]) :=
  read_data_raw_spec false
    (NDArr.node [NDArr.node [NDArr.node [NDArr.leaf 1, NDArr.leaf 2]],
      NDArr.node [NDArr.node [NDArr.leaf 3, NDArr.leaf 4]]])
    [NDArr.node [NDArr.node [NDArr.leaf 1, NDArr.leaf 2]],
      NDArr.node [NDArr.node [NDArr.leaf 3, NDArr.leaf 4]]]
    uriBase [1, 0] (by rfl) (by decide)

/-- Counterexample to claim C3: a 5-dimensional array is read with no
error at all; read_data succeeds and the whole array is wrapped by
expand_dims into a single-element batch, exactly the 2-D slicing
path, instead of failing with a shape-mismatch error. -/
theorem read_data_rank5_counterexample :
    (ndshape data5).length = 5 ∧
    read_data false true data5 uriBase [0]
      = some (NDArr.node [data5], [uriBase]) := by
  exact ⟨rfl, rfl⟩

/-- Amended claim C3: without downsampling, a node whose rank is not 3
and not 4 never fails during slicing: read_data silently coerces it
into the 2-D path, wrapping the whole array as a single-element batch
(so ranks 1, 5, 6, ... raise no shape-mismatch error). -/
theorem read_data_other_rank_coerced (data : NDArr) (base : List Char)
    (idxs : List Nat) (h3 : (ndshape data).length ≠ 3)
    (h4 : (ndshape data).length ≠ 4) :
    read_data false true data base idxs
      = some (NDArr.node [data], get_tiled_uris (ndshape data) base idxs) := by
  unfold read_data slice_block
  rw [if_neg (by simp), if_neg h4, if_neg h3]
  rfl

/-- Closed instance of read_data_other_rank_coerced at the concrete
5-dimensional array. -/
theorem read_data_other_rank_coerced_witness :
    read_data false true data5 uriBase [0]
      = some (NDArr.node [data5], get_tiled_uris (ndshape data5) uriBase [0]) :=
  read_data_other_rank_coerced data5 uriBase [0] (by decide) (by decide)

/-- Claim C2 evaluation at the failing input: the 3-dimensional source
src213 of shape (2, 1, 3) is a stack of height-one images; slicing index
0 yields a block of shape (1, 1, 3) and read_data squeezes its axis 1
anyway, because the code only tests block_data.shape[1] == 1 and never
checks the rank, returning a block of shape (1, 3): the grayscale
squeeze fires on a source that is not 4-dimensional. -/
theorem read_data_squeeze_on_3d :
    ndshape src213 = [2, 1, 3] ∧
    read_data false false src213 uriBase [0]
      = some (NDArr.node [NDArr.node [NDArr.leaf 1, NDArr.leaf 2, NDArr.leaf 3]],
          get_tiled_uris (ndshape src213) uriBase [0]) ∧
    ndshape (NDArr.node [NDArr.node [NDArr.leaf 1, NDArr.leaf 2, NDArr.leaf 3]])
      = [1, 3] := by
  exact ⟨rfl, rfl, rfl⟩

theorem digitChar_isDigit (d : Nat) (h : d < 10) :
    (Nat.digitChar d).isDigit = true := by
  interval_cases d <;> decide

theorem digitChar_toNat (d : Nat) (h : d < 10) :
    (Nat.digitChar d).toNat - 48 = d := by
  interval_cases d <;> decide

theorem natChars_all_digit (n : Nat) : ∀ c ∈ natChars n, c.isDigit = true := by
  intro c hc
  unfold natChars at hc
  by_cases h : n = 0
  · rw [if_pos h] at hc
    simp at hc
    subst hc
    decide
  · rw [if_neg h] at hc
    simp only [List.mem_map, List.mem_reverse] at hc
    obtain ⟨d, hd, rfl⟩ := hc
    exact digitChar_isDigit d (Nat.digits_lt_base (by norm_num) hd)

theorem natChars_ne_nil (n : Nat) : natChars n ≠ [] := by
  unfold natChars
  by_cases h : n = 0
  · rw [if_pos h]
    simp
  · rw [if_neg h]
    simp [Nat.digits_ne_nil_iff_ne_zero, h]

theorem foldl_digits_eq (le : List Nat) (hle : ∀ d ∈ le, d < 10) (a : Nat) :
    ((le.reverse.map Nat.digitChar).foldl (fun acc c => 10 * acc + (c.toNat - 48)) a)
      = a * 10 ^ le.length + Nat.ofDigits 10 le := by
  induction le generalizing a with
  | nil => simp
  | cons d t ih =>
    have hd : d < 10 := hle d (by simp)
    have ht : ∀ x ∈ t, x < 10 := fun x hx => hle x (by simp [hx])
    simp only [List.reverse_cons, List.map_append, List.foldl_append,
      List.map_cons, List.map_nil, List.foldl_cons, List.foldl_nil]
    rw [ih ht, digitChar_toNat d hd, Nat.ofDigits_cons]
    simp only [List.length_cons, pow_succ]
    ring

theorem parseDigits_natChars (n : Nat) : parseDigits (natChars n) = some n := by
  have hall : (natChars n).all (fun c => c.isDigit) = true := by
    rw [List.all_eq_true]
    intro c hc
    exact natChars_all_digit n c hc
  unfold parseDigits
  rw [if_pos ⟨natChars_ne_nil n, hall⟩]
  congr 1
  by_cases h : n = 0
  · subst h
    decide
  · unfold natChars
    rw [if_neg h,
      foldl_digits_eq (Nat.digits 10 n)
        (fun d hd => Nat.digits_lt_base (by norm_num) hd) 0]
    simp [Nat.ofDigits_digits]

theorem pyInt_natChars (n : Nat) : pyInt (natChars n) = some (Int.ofNat n) := by
  have hdig : ((natChars n).headD ' ').isDigit = true := by
    cases hc : natChars n with
    | nil => exact absurd hc (natChars_ne_nil n)
    | cons c t =>
      have hm : c ∈ natChars n := by
        rw [hc]
        simp
      have := natChars_all_digit n c hm
      simpa [hc] using this
  have h1 : (natChars n).headD ' ' ≠ '-' := by
    intro h
    rw [h] at hdig
    exact absurd hdig (by decide)
  have h2 : (natChars n).headD ' ' ≠ '+' := by
    intro h
    rw [h] at hdig
    exact absurd hdig (by decide)
  unfold pyInt
  rw [if_neg h1, if_neg h2, parseDigits_natChars]
  rfl

theorem key_not_in_digits (cs : List Char) (h : ∀ c ∈ cs, c.isDigit = true) :
    containsSlice cs = false := by
  induction cs with
  | nil => rfl
  | cons c rest ih =>
    have hc : c.isDigit = true := h c (by simp)
    have hrest := ih (fun x hx => h x (by simp [hx]))
    have hne : ('s' == c) = false := by
      rw [beq_eq_false_iff_ne]
      intro hh
      rw [← hh] at hc
      exact absurd hc (by decide)
    unfold containsSlice
    rw [hrest]
    simp [sliceKey, List.isPrefixOf, hne]

theorem splitOnSlice_ne_nil_aux :
    ∀ (n : Nat) (s acc : List Char), s.length ≤ n → splitOnSlice s acc ≠ [] := by
  intro n
  induction n with
  | zero =>
    intro s acc hs
    have hnil : s = [] := by
      cases s with
      | nil => rfl
      | cons a t => simp at hs
    subst hnil
    rw [splitOnSlice.eq_def]
    simp
  | succ m ih =>
    intro s acc hs
    cases s with
    | nil =>
      rw [splitOnSlice.eq_def]
      simp
    | cons c rest =>
      rw [splitOnSlice.eq_def]
      by_cases hp : sliceKey.isPrefixOf (c :: rest) = true
      · simp only [hp, if_true]
        simp
      · simp only [hp, if_false]
        exact ih rest (c :: acc) (by simpa using hs)

theorem splitOnSlice_ne_nil (s acc : List Char) : splitOnSlice s acc ≠ [] :=
  splitOnSlice_ne_nil_aux s.length s acc (le_refl _)

theorem getLastD_irrel (l : List (List Char)) (hl : l ≠ []) (a b : List Char) :
    l.getLastD a = l.getLastD b := by
  cases l with
  | nil => exact absurd rfl hl
  | cons x t => rw [List.getLastD_cons, List.getLastD_cons]

theorem splitOnSlice_no_occ :
    ∀ (s acc : List Char), containsSlice s = false →
      splitOnSlice s acc = [acc.reverse ++ s] := by
  intro s
  induction s with
  | nil =>
    intro acc h
    rw [splitOnSlice.eq_def]
    simp
  | cons c rest ih =>
    intro acc h
    unfold containsSlice at h
    rw [Bool.or_eq_false_iff] at h
    have hp : ¬ (sliceKey.isPrefixOf (c :: rest) = true) := by
      rw [h.1]
      simp
    rw [splitOnSlice.eq_def]
    simp only [hp, if_false]
    rw [ih (c :: acc) h.2]
    simp

theorem splitOnSlice_key_head (ds acc : List Char)
    (hds : ∀ c ∈ ds, c.isDigit = true) :
    splitOnSlice (sliceKey ++ ds) acc = [acc.reverse, ds] := by
  have h1 : sliceKey ++ ds = 's' :: (['l', 'i', 'c', 'e', '='] ++ ds) := rfl
  have hp : sliceKey.isPrefixOf ('s' :: (['l', 'i', 'c', 'e', '='] ++ ds)) = true := by
    simp [sliceKey, List.isPrefixOf]
  rw [h1, splitOnSlice.eq_def]
  simp only [hp, if_true]
  have hd : (['l', 'i', 'c', 'e', '='] ++ ds).drop 5 = ds := rfl
  rw [hd, splitOnSlice_no_occ ds [] (key_not_in_digits ds hds)]
  simp

theorem splitOnSlice_getLastD :
    ∀ (n : Nat) (s ds acc : List Char), s.length ≤ n →
      (∀ c ∈ ds, c.isDigit = true) →
      (splitOnSlice (s ++ (sliceKey ++ ds)) acc).getLastD [] = ds := by
  intro n
  induction n with
  | zero =>
    intro s ds acc hs hds
    have hnil : s = [] := by
      cases s with
      | nil => rfl
      | cons a t => simp at hs
    subst hnil
    rw [List.nil_append, splitOnSlice_key_head ds acc hds]
    simp
  | succ m ih =>
    intro s ds acc hs hds
    cases s with
    | nil =>
      rw [List.nil_append, splitOnSlice_key_head ds acc hds]
      simp
    | cons c s2 =>
      rw [List.cons_append, splitOnSlice.eq_def]
      by_cases hp : sliceKey.isPrefixOf (c :: (s2 ++ (sliceKey ++ ds))) = true
      · simp only [hp, if_true]
        by_cases hlen : 5 ≤ s2.length
        · have hdrop : (s2 ++ (sliceKey ++ ds)).drop 5
              = s2.drop 5 ++ (sliceKey ++ ds) :=
            List.drop_append_of_le_length hlen
          rw [hdrop, List.getLastD_cons,
            getLastD_irrel _ (splitOnSlice_ne_nil _ _) acc.reverse []]
          refine ih (s2.drop 5) ds [] ?_ hds
          have hlen2 : s2.length ≤ m := by simpa using hs
          simp only [List.length_drop]
          omega
        · exfalso
          rcases s2 with _ | ⟨a1, _ | ⟨a2, _ | ⟨a3, _ | ⟨a4, _ | ⟨a5, s6⟩⟩⟩⟩⟩
          · simp [sliceKey, List.isPrefixOf] at hp
          · simp [sliceKey, List.isPrefixOf] at hp
          · simp [sliceKey, List.isPrefixOf] at hp
          · simp [sliceKey, List.isPrefixOf] at hp
          · simp [sliceKey, List.isPrefixOf] at hp
          · simp at hlen
      · simp only [hp, if_false]
        exact ih s2 ds (c :: acc) (by simpa using hs) hds

theorem containsSlice_append (s ds : List Char) :
    containsSlice (s ++ (sliceKey ++ ds)) = true := by
  induction s with
  | nil =>
    rw [List.nil_append]
    have h1 : sliceKey ++ ds = 's' :: (['l', 'i', 'c', 'e', '='] ++ ds) := rfl
    rw [h1]
    unfold containsSlice
    have hp : sliceKey.isPrefixOf ('s' :: (['l', 'i', 'c', 'e', '='] ++ ds)) = true := by
      simp [sliceKey, List.isPrefixOf]
    rw [hp]
    simp
  | cons c s2 ih =>
    rw [List.cons_append]
    unfold containsSlice
    rw [ih]
    simp

/-- Claim C9: a URI not containing the slice key has extracted index 0,
and extracting the index from a derived per-index URI recovers exactly
the requested index, both for a single appended index and along the
whole URI list derived for a multi-image node (the derivation condition
of more than 2 dimensions and leading dimension above 1 being assumed
for the node). -/
theorem get_uri_index_spec (uri base : List Char) (i : Nat)
    (shape : List Nat) (idxs : List Nat)
    (h0 : containsSlice uri = false)
    (h1 : 2 < shape.length) (h2 : 1 < shape.headD 0) :
    get_uri_index uri = some 0 ∧
    get_uri_index (base ++ ('?' :: sliceKey) ++ natChars i) = some (Int.ofNat i) ∧
    (get_tiled_uris shape base idxs).map get_uri_index
      = idxs.map (fun j => some (Int.ofNat j)) := by
  have hmain : ∀ (b : List Char) (k : Nat),
      get_uri_index (b ++ ('?' :: sliceKey) ++ natChars k) = some (Int.ofNat k) := by
    intro b k
    have hform : b ++ ('?' :: sliceKey) ++ natChars k
        = (b ++ ['?']) ++ (sliceKey ++ natChars k) := by
      simp
    unfold get_uri_index
    rw [hform, containsSlice_append]
    rw [if_neg (by simp)]
    rw [splitOnSlice_getLastD ((b ++ ['?']).length) (b ++ ['?']) (natChars k) []
      (le_refl _) (natChars_all_digit k)]
    exact pyInt_natChars k
  refine ⟨?_, hmain base i, ?_⟩
  · unfold get_uri_index
    rw [if_pos h0]
  · rw [get_tiled_uris, if_pos ⟨h1, h2⟩, List.map_map]
    exact List.map_congr_left (fun j _ => hmain base j)

/-- Closed instance of get_uri_index_spec: a plain URI maps to index 0,
and derived URIs of a 5-slice node at indexes [2, 0, 4] (and a single
index 12) map back to their indexes. -/
theorem get_uri_index_spec_witness :
    get_uri_index ['a', 'b'] = some 0 ∧
    get_uri_index (uriBase ++ ('?' :: sliceKey) ++ natChars 12)
      = some (Int.ofNat 12) ∧
    (get_tiled_uris [5, 64, 64] uriBase [2, 0, 4]).map get_uri_index
      = [2, 0, 4].map (fun j => some (Int.ofNat j)) :=
  get_uri_index_spec ['a', 'b'] uriBase 12 [5, 64, 64] [2, 0, 4] (by decide)
    (by decide) (by decide)
